import Mathlib

/-!
Verification of the ecad-viewer core (document cache, board viewer label
pass, view-state engine) against its natural-language specification.

JavaScript strings are modelled as lists of UTF-16 code units: `Str` (a
`List Char`) where only the character identity matters, and `List Nat`
where the numeric code-unit value matters (the `charCodeAt` based hash).
JavaScript `Map` objects are modelled as association lists in insertion
order, mirroring the iteration-order semantics of `Map`.
-/

/-- JavaScript string, modelled as its list of characters. -/
abbrev Str := List Char

/-- JavaScript `Array.prototype.join(sep)` for a one-character separator. -/
def joinSep (sep : Char) : List Str → Str
  | [] => []
  | [x] => x
  | x :: xs => x ++ sep :: joinSep sep xs

/-- JavaScript `String.prototype.split(sep)` for a one-character separator. -/
def splitSep (sep : Char) : Str → List Str
  | [] => [[]]
  | c :: rest =>
    if c = sep then [] :: splitSep sep rest
    else
      match splitSep sep rest with
      | [] => [[c]]
      | p :: ps => (c :: p) :: ps

/-- JavaScript `String.prototype.lastIndexOf` for a one-character needle,
returning `none` for the JavaScript result `-1`. -/
def lastIndexOfChar (c : Char) : Str → Option Nat
  | [] => none
  | a :: rest =>
    match lastIndexOfChar c rest with
    | some i => some (i + 1)
    | none => if a = c then some 0 else none

/-- Whether one list is an initial segment of another, as JavaScript
`String.prototype.startsWith` (first argument is the needle). -/
def startsWithStr : Str → Str → Bool
  | [], _ => true
  | _ :: _, [] => false
  | p :: ps, s :: ss => p = s && startsWithStr ps ss

/-- ASCII lowering, modelling `String.prototype.toLowerCase` on the ASCII
range (the only range the "unconnected" test below can match). -/
def jsToLower (s : Str) : Str := s.map Char.toLower

/-! ## Document store cache key (src/kicanvas/project.ts, hashLite / sourcesKey)

Blob contents are modelled as lists of UTF-16 code-unit values, matching
`charCodeAt`.  The djb2-xor step `h = ((h << 5) + h) ^ s.charCodeAt(i)`
operates on 32-bit integers; the value read back by `h >>> 0` is exactly
`(33 * h) mod 2^32` xor the code unit, so the whole loop is modelled in
`Nat` with an explicit `% 2^32`. -/

/-- One iteration of the `hashLite` loop of project.ts. -/
def djbStep (h c : Nat) : Nat := ((33 * h) % 2 ^ 32) ^^^ c

/-- Numeric value of the `hashLite` accumulator after the loop: the first
`min(length, 4096)` code units are folded over `djbStep` from seed 5381. -/
def hashLiteNum (s : List Nat) : Nat :=
  (s.take (min s.length 4096)).foldl djbStep 5381

/-- Lowercase hexadecimal rendering of a natural number, as JavaScript
`(h >>> 0).toString(16)`. -/
def natToHex (n : Nat) : Str :=
  if n = 0 then ['0'] else ((Nat.digits 16 n).map Nat.digitChar).reverse

/-- Decimal rendering of a natural number, as JavaScript string coercion. -/
def natToDec (n : Nat) : Str :=
  if n = 0 then ['0'] else ((Nat.digits 10 n).map Nat.digitChar).reverse

/-- The `hashLite` function of project.ts: lightweight rolling hash of the
first 4096 code units, in hex, joined with the total length. -/
def hashLite (s : List Nat) : Str :=
  natToHex (hashLiteNum s) ++ ':' :: natToDec s.length

/-- An in-memory source blob (`EcadBlob`): filename plus content. -/
structure EcadBlob where
  filename : Str
  content : List Nat
deriving DecidableEq, Repr

/-- A load-source set (`EcadSources`): ordered URLs plus in-memory blobs. -/
structure EcadSources where
  urls : List Str
  blobs : List EcadBlob
deriving DecidableEq, Repr

/-- Key contribution of one blob inside `sourcesKey`:
`filename + ":" + hashLite(content)`. -/
def blobEntry (b : EcadBlob) : Str := b.filename ++ ':' :: hashLite b.content

/-- The `sourcesKey` function of project.ts: concatenation of the joined
URLs and the joined per-blob entries. -/
def sourcesKey (src : EcadSources) : Str :=
  'u' :: ':' :: (joinSep '|' src.urls ++ '#' :: 'b' :: ':' :: joinSep '|' (src.blobs.map blobEntry))

/-! ## Net-name label text (src/viewers/board/viewer.ts and painter.ts,
strip_net_path / normalize_unconnected_netname) -/

/-- The `strip_net_path` helper: substring after the last "/" when one is
present (`lastIndexOf` plus `slice(idx + 1)`), otherwise the input. -/
def strip_net_path (name : Str) : Str :=
  match lastIndexOfChar '/' name with
  | some idx => name.drop (idx + 1)
  | none => name

/-- The `normalize_unconnected_netname` helper: the empty name is kept,
and a name whose lowercase form starts with "unconnected" becomes "x". -/
def normalize_unconnected_netname (name : Str) : Str :=
  if name = [] then name
  else if startsWithStr ("unconnected".data) (jsToLower name) then ['x'] else name

/-- The net label text actually rendered for a (already unescaped) net
name: truncation followed by the unconnected-marker replacement, as in
both the dynamic track pass and the static pad pass. -/
def renderedNetLabel (name : Str) : Str :=
  normalize_unconnected_netname (strip_net_path name)

/-! ## Project snapshot cache (src/kicanvas/project.ts)

Parsed documents, BOM items, net references, designator references and
settings objects are shared by reference between a `Project` and a cache
snapshot; reference identity is modelled by opaque numeric ids, so "the
restored containers hold the same (shared, not deep-cloned) objects"
becomes equality of the stored ids.  A JavaScript `Map` is an association
list in insertion order: `set` on an existing key updates in place,
deletion removes the single entry for the key. -/

abbrev DocId := Nat
abbrev BomItemId := Nat
abbrev NetRefId := Nat
abbrev DesignatorRefId := Nat
abbrev SettingsId := Nat

/-- Association-list lookup: JavaScript `Map.prototype.get`. -/
def mapGet {α : Type} [DecidableEq α] {β : Type} (m : List (α × β)) (k : α) : Option β :=
  match m.find? (fun e => e.1 = k) with
  | some e => some e.2
  | none => none

/-- Association-list update: JavaScript `Map.prototype.set` (updates an
existing key in place, otherwise appends at the end). -/
def mapSet {α : Type} [DecidableEq α] {β : Type} : List (α × β) → α → β → List (α × β)
  | [], k, v => [(k, v)]
  | e :: rest, k, v => if e.1 = k then (k, v) :: rest else e :: mapSet rest k v

/-- Association-list deletion: JavaScript `Map.prototype.delete`. -/
def mapDelete {α : Type} [DecidableEq α] {β : Type} : List (α × β) → α → List (α × β)
  | [], _ => []
  | e :: rest, k => if e.1 = k then rest else e :: mapDelete rest k

/-- Snapshot of one `ProjectPage` (`ProjectPageSnapshot` of project.ts). -/
structure ProjectPageSnapshot where
  filename : Str
  sheet_path : Str
  name : Option Str
  page : Option Str
deriving DecidableEq, Repr

/-- A `ProjectPage` of project.ts (the back-pointer to the owning project
is dropped; all other constructor fields are kept). -/
structure ProjectPage where
  filename : Str
  sheet_path : Str
  name : Option Str
  page : Option Str
deriving DecidableEq, Repr

/-- Unique identifier of a page within the project
(`ProjectPage.project_path`). -/
def ProjectPage.project_path (p : ProjectPage) : Str :=
  if p.sheet_path ≠ [] then p.filename ++ ':' :: p.sheet_path else p.filename

/-- A `ProjectSnapshot` of project.ts: timestamp pair plus copies of every
container of the project, sharing the leaf objects (ids). -/
structure ProjectSnapshot where
  createdAt : Nat
  lastUsedAt : Nat
  files_by_name : List (Str × DocId)
  file_content : List (Str × Str)
  pcb : List DocId
  sch : List DocId
  ov_3d_url : Option Str
  bom_items : List BomItemId
  label_name_refs : List (Str × List NetRefId)
  net_item_refs : List (Str × NetRefId)
  designator_refs : List (Str × DesignatorRefId)
  project_name : Str
  settings : SettingsId
  active_sch_name : Option Str
  found_cjk : Bool
  root_page : Option ProjectPageSnapshot
  pages : List ProjectPageSnapshot
deriving DecidableEq, Repr

/-- The mutable state of a `Project` instance (the fields touched by
`dispose` and by the cache-hit branch of `load`). -/
structure ProjectState where
  files_by_name : List (Str × DocId)
  file_content : List (Str × Str)
  pcb : List DocId
  sch : List DocId
  ov_3d_url : Option Str
  bom_items : List BomItemId
  label_name_refs : List (Str × List NetRefId)
  net_item_refs : List (Str × NetRefId)
  designator_refs : List (Str × DesignatorRefId)
  project_name : Str
  settings : SettingsId
  active_sch_name : Option Str
  found_cjk : Bool
  root_schematic_page : Option ProjectPage
  pages_by_path : List (Str × ProjectPage)
  loaded : Bool
deriving DecidableEq, Repr

/-- The `dispose` method of `Project`: clears every container. -/
def ProjectState.dispose (s : ProjectState) : ProjectState :=
  { s with
    pcb := [], sch := [],
    files_by_name := [], pages_by_path := [], file_content := [],
    label_name_refs := [], net_item_refs := [], designator_refs := [] }

/-- The process-wide snapshot cache `projectSnapshotCache`. -/
abbrev ProjectCache := List (Str × ProjectSnapshot)

/-- The `PROJECT_CACHE_MAX` constant of project.ts. -/
def PROJECT_CACHE_MAX : Nat := 3

/-- The `PROJECT_CACHE_TTL_MS` constant of project.ts (10 minutes). -/
def PROJECT_CACHE_TTL_MS : Nat := 10 * 60 * 1000

/-- The while-loop of `evictProjectCacheIfNeeded`: delete the front of the
by-`lastUsedAt` sorted victim list while the cache is over capacity. -/
def evictLoop : List (Str × ProjectSnapshot) → ProjectCache → ProjectCache
  | [], cache => cache
  | v :: items, cache =>
    if cache.length > PROJECT_CACHE_MAX then evictLoop items (mapDelete cache v.1)
    else cache

/-- Comparator of the `Array.prototype.sort` call of
`evictProjectCacheIfNeeded` (ascending `lastUsedAt`; `sort` is stable). -/
def lastUsedLe (a b : Str × ProjectSnapshot) : Bool :=
  a.2.lastUsedAt ≤ b.2.lastUsedAt

/-- The `evictProjectCacheIfNeeded` function of project.ts: first delete
every entry older than the TTL, then, if still over capacity, delete
least-recently-used entries until at or under capacity. -/
def evictProjectCacheIfNeeded (now : Nat) (cache : ProjectCache) : ProjectCache :=
  let swept := cache.filter (fun e => ¬ (now - e.2.lastUsedAt > PROJECT_CACHE_TTL_MS))
  if swept.length ≤ PROJECT_CACHE_MAX then swept
  else evictLoop (swept.mergeSort lastUsedLe) swept

/-- The cache read discipline of `Project.load`: a stored snapshot counts
as a hit only when `now - lastUsedAt <= TTL`. -/
def cacheGetFresh (cache : ProjectCache) (now : Nat) (key : Str) : Option ProjectSnapshot :=
  match mapGet cache key with
  | some snap => if now - snap.lastUsedAt ≤ PROJECT_CACHE_TTL_MS then some snap else none
  | none => none

/-- Restoration of a `ProjectPage` from its snapshot (the `new
ProjectPage(this, p.filename, p.sheet_path, p.name, p.page)` calls of the
cache-hit branch). -/
def pageOfSnapshot (p : ProjectPageSnapshot) : ProjectPage :=
  { filename := p.filename, sheet_path := p.sheet_path, name := p.name, page := p.page }

/-- The cache-hit branch of `Project.load`: dispose the current state,
rebuild every container from the snapshot (fresh containers, shared leaf
ids), rebuild the page map, and open the loaded gate. -/
def restoreFromSnapshot (s : ProjectState) (snap : ProjectSnapshot) : ProjectState :=
  let disposed := s.dispose
  { disposed with
    files_by_name := snap.files_by_name
    file_content := snap.file_content
    pcb := snap.pcb
    sch := snap.sch
    ov_3d_url := snap.ov_3d_url
    bom_items := snap.bom_items
    label_name_refs := snap.label_name_refs
    net_item_refs := snap.net_item_refs
    designator_refs := snap.designator_refs
    project_name := snap.project_name
    settings := snap.settings
    active_sch_name := snap.active_sch_name
    found_cjk := snap.found_cjk
    pages_by_path :=
      snap.pages.foldl
        (fun m p => mapSet m (pageOfSnapshot p).project_path (pageOfSnapshot p)) []
    root_schematic_page := snap.root_page.map pageOfSnapshot
    loaded := true }

/-- Events observable on a `Project` during `load`. -/
inductive ProjectEvent where
  | load
deriving DecidableEq, Repr

/-- Result of one `Project.load` call: the project state, the shared
cache, the dispatched events, and counters of file fetches and document
parses performed. -/
structure LoadResult where
  state : ProjectState
  cache : ProjectCache
  events : List ProjectEvent
  fetches : Nat
  parses : Nat
deriving Repr

/-- The `Project.load` method.  The cache-miss branch (network fetch,
parsing, hierarchy and BOM computation) is abstracted as the `missLoad`
argument; the cache-hit branch is modelled in full: refresh `lastUsedAt`,
run cache maintenance, dispose, restore from the snapshot, open the
loaded gate and emit a single load event, with no fetch and no parse. -/
def projectLoad (missLoad : ProjectState → EcadSources → Nat → LoadResult)
    (cache : ProjectCache) (s : ProjectState) (sources : EcadSources) (now : Nat) :
    LoadResult :=
  let key := sourcesKey sources
  match mapGet cache key with
  | some cached =>
    if now - cached.lastUsedAt ≤ PROJECT_CACHE_TTL_MS then
      let cache1 := mapSet cache key { cached with lastUsedAt := now }
      let cache2 := evictProjectCacheIfNeeded now cache1
      { state := restoreFromSnapshot s cached
        cache := cache2
        events := [ProjectEvent.load]
        fetches := 0
        parses := 0 }
    else missLoad s sources now
  | none => missLoad s sources now

/-! ## Board viewer: net focus (src/viewers/board/viewer.ts,
highlight_net / clear_net_focus)

Layer visibility flags, the `#should_restore_visibility` latch and the
layers panel visibility map are modelled explicitly.  The painter call
`paint_net` is kept abstract (its boolean result is a parameter), since
the claim conditions on "when the highlight paints".  The layers panel
method `clear_highlight` touches only the panel-side highlight mark, not
the visibility map (panel source is outside src/; per the spec the
highlight mark is separate from visibility). -/

/-- A view layer as seen by the net-focus logic: a name and the boolean
visible flag. -/
structure VLayer where
  name : Str
  visible : Bool
deriving DecidableEq, Repr

/-- Events dispatched by the board viewer during net focus changes. -/
inductive BVEvent where
  | select (net : Nat)
  | netFocusCleared
deriving DecidableEq, Repr

/-- Board viewer state relevant to net focus: the layers in UI order, the
restore latch, and the layers panel visibility map (`layer_visibility`). -/
structure BVState where
  layers : List VLayer
  should_restore_visibility : Bool
  ctrl_visibilities : List (Str × Bool)
deriving DecidableEq, Repr

/-- The `highlight_net` method.  `paints` is the boolean result of
`painter.paint_net`; `num` is the net argument (`none` models `null`, and
JavaScript truthiness makes net `0` falsy). -/
def highlight_net (s : BVState) (paints : Bool) (num : Option Nat) : BVState × List BVEvent :=
  let truthy : Bool := match num with
    | some n => n != 0
    | none => false
  let s1 :=
    if paints then
      let s0 := { s with should_restore_visibility := false }
      if truthy then
        { s0 with
          should_restore_visibility := true
          layers := s0.layers.map (fun l => { l with visible := false }) }
      else s0
    else s
  (s1, if truthy then [BVEvent.select (num.getD 0)] else [])

/-- The `clear_net_focus` method: when the restore latch is set, write
each layer's visible flag back from the panel visibility map and drop the
latch; in every case dispatch the net-focus-cleared notification. -/
def clear_net_focus (s : BVState) : BVState × List BVEvent :=
  if s.should_restore_visibility then
    ({ s with
        layers := s.layers.map
          (fun l => { l with visible := (mapGet s.ctrl_visibilities l.name).getD false })
        should_restore_visibility := false },
      [BVEvent.netFocusCleared])
  else (s, [BVEvent.netFocusCleared])

/-! ## Board viewer: dynamic track net-name label pass
(src/viewers/board/viewer.ts, #update_dynamic_track_net_labels)

Floating-point coordinates, widths and the camera zoom are modelled as
rationals.  The per-division label placement inside the viewport (repeat
count, angle, `contains_point`) only positions the labels of a segment
that has already passed every generation check and is not modelled; the
model records, per copper layer, whether the label layer was regenerated
and for which segments labels are generated.  The via half of the pass
enters the model only through its contribution to the early-out check. -/

/-- A view layer as seen by the label pass: name, opacity, visibility. -/
structure TLayer where
  name : Str
  opacity : ℚ
  visible : Bool
deriving DecidableEq, Repr

/-- Camera state used by the pass: zoom plus validity of the viewport
bounding box. -/
structure CameraQ where
  zoom : ℚ
  bbox_valid : Bool
deriving DecidableEq, Repr

/-- A board track segment (`board_items.LineSegment`). -/
structure LineSegment where
  start_x : ℚ
  start_y : ℚ
  end_x : ℚ
  end_y : ℚ
  width : ℚ
  layer : Str
  net : Int
deriving DecidableEq, Repr

/-- The layer set as used by the pass: all layers for `by_name` lookup,
plus the copper layer stack in order. -/
structure LayerSetModel where
  layers : List TLayer
  copper : List Str
deriving DecidableEq, Repr

/-- The `by_name` lookup of the layer set. -/
def LayerSetModel.by_name (st : LayerSetModel) (nm : Str) : Option TLayer :=
  st.layers.find? (fun l => l.name = nm)

/-- Modelled from the spec: the `track_netname_label_layer_for` helper of
layers.ts (outside src/) derives the per-copper-layer label layer name by
the string convention "track-netname:" + copper layer name. -/
def track_netname_label_layer_for (cu : Str) : Str := ("track-netname:".data) ++ cu

/-- Modelled from the spec: the name of the single via net-name label
layer (`LabelLayerNames.via_net_names`, layers.ts is outside src/). -/
def via_net_names_layer : Str := "via-netnames".data

/-- The `track_netlabel_threshold_mm` constant (4.0 mm). -/
def TRACK_NETLABEL_THRESHOLD_MM : ℚ := 4

/-- The `1e-6` clamp applied to the segment width before dividing. -/
def WIDTH_CLAMP : ℚ := 1 / 1000000

/-- Squared segment length (`dx * dx + dy * dy` of the pass). -/
def segLenSq (s : LineSegment) : ℚ :=
  (s.end_x - s.start_x) * (s.end_x - s.start_x) +
    (s.end_y - s.start_y) * (s.end_y - s.start_y)

/-- The `char_count` helper (`Array.from(s).length`). -/
def charCount (s : Str) : Nat := s.length

/-- Per-segment generation check of the track loop: positive net, zoom at
or above the level-of-detail threshold, non-empty displayed name, and
squared length at least the square of width times character count. -/
def trackSegDrawn (camera : CameraQ) (getNetName : Int → Str) (unesc : Str → Str)
    (seg : LineSegment) : Bool :=
  if seg.net ≤ 0 then false
  else
    let width_mm := max seg.width WIDTH_CLAMP
    let zoom_req := TRACK_NETLABEL_THRESHOLD_MM / width_mm
    if camera.zoom < zoom_req then false
    else
      let netname := strip_net_path (unesc (getNetName seg.net))
      let display_netname := normalize_unconnected_netname netname
      if display_netname = [] then false
      else
        let num_char := charCount display_netname
        if num_char = 0 then false
        else
          let min_len := seg.width * (num_char : ℚ)
          if segLenSq seg < min_len * min_len then false
          else true

/-- Per-copper-layer bucket of track segments (the `seg_by_layer` map of
the pass, which preserves the order of `board.segments`). -/
def segBucket (segments : List LineSegment) (cu : Str) : List LineSegment :=
  segments.filter (fun s => s.layer = cu)

/-- Whether the label layer of one copper layer passes the regeneration
checks of the track loop: not skipped by high contrast, present, nonzero
opacity, and visible (checked independently, in that order). -/
def trackLayerEnabled (st : LayerSetModel) (highContrastPrimary : Option Str)
    (cu : Str) : Bool :=
  match highContrastPrimary with
  | some p => if cu ≠ p then false else
      match st.by_name (track_netname_label_layer_for cu) with
      | none => false
      | some l => if l.opacity = 0 then false else if ¬ l.visible then false else true
  | none =>
      match st.by_name (track_netname_label_layer_for cu) with
      | none => false
      | some l => if l.opacity = 0 then false else if ¬ l.visible then false else true

/-- The `any_via_enabled` early-out input of the pass. -/
def anyViaEnabled (st : LayerSetModel) : Bool :=
  match st.by_name via_net_names_layer with
  | some l => l.opacity ≠ 0 && l.visible
  | none => false

/-- The `any_track_enabled` early-out input of the pass. -/
def anyTrackEnabled (st : LayerSetModel) (highContrastPrimary : Option Str) : Bool :=
  match highContrastPrimary with
  | some p =>
    match st.by_name (track_netname_label_layer_for p) with
    | none => false
    | some l => l.opacity ≠ 0 && l.visible
  | none =>
    (st.copper.filterMap (fun cu => st.by_name (track_netname_label_layer_for cu))).any
      (fun l => l.opacity ≠ 0 && l.visible)

/-- Output of the track half of the dynamic pass: which track label
layers were regenerated (cleared and rebuilt), and the (label layer,
segment) pairs for which labels are generated. -/
structure TrackLabelPassOut where
  regenerated : List Str
  labeled : List (Str × LineSegment)
deriving DecidableEq, Repr

/-- The track half of `#update_dynamic_track_net_labels`: early exits for
an invalid viewport and for no enabled label layer, then the per-copper
loop with its regeneration checks and the per-segment generation checks. -/
def updateDynamicTrackNetLabels (st : LayerSetModel) (camera : CameraQ)
    (segments : List LineSegment) (getNetName : Int → Str) (unesc : Str → Str)
    (highContrastPrimary : Option Str) : TrackLabelPassOut :=
  if ¬ camera.bbox_valid then ⟨[], []⟩
  else if ¬ (anyTrackEnabled st highContrastPrimary || anyViaEnabled st) then ⟨[], []⟩
  else
    { regenerated :=
        st.copper.filterMap (fun cu =>
          if trackLayerEnabled st highContrastPrimary cu then
            some (track_netname_label_layer_for cu)
          else none)
      labeled :=
        st.copper.flatMap (fun cu =>
          if trackLayerEnabled st highContrastPrimary cu then
            ((segBucket segments cu).filter (trackSegDrawn camera getNetName unesc)).map
              (fun seg => (track_netname_label_layer_for cu, seg))
          else []) }

/-! ## Board viewer: exception firewall of the dynamic pass
(src/viewers/board/viewer.ts, draw / #update_dynamic_track_net_labels)

The whole body of `#update_dynamic_track_net_labels` runs inside
`try ... catch (_) {}`; exceptions are modelled with `Except`. -/

/-- The try/catch wrapper of `#update_dynamic_track_net_labels`: a normal
result is kept, any raised exception is swallowed. -/
def catchDynamicPass {E A : Type} (body : Except E A) : Option A :=
  match body with
  | Except.ok a => some a
  | Except.error _ => none

/-- Result of one `draw` call: whatever the (possibly failed) dynamic
label pass produced, plus the result of the rest of the draw
(`super.draw()`), which always runs. -/
structure DrawOutcome (A B : Type) where
  labels : Option A
  rest : B
deriving Repr

/-- The `draw` override of the board viewer: run the dynamic label pass
behind the exception firewall, then proceed with the base draw. -/
def boardViewerDraw {E A B : Type} (dynamicPassBody : Except E A) (superDraw : B) :
    DrawOutcome A B :=
  { labels := catchDynamicPass dynamicPassBody, rest := superDraw }

/-! ## Viewer shell: collapse and deferred load
(src/ecad-viewer/ecad_viewer.ts)

The shell state keeps the collapse flag, the loading/loaded flags, the
page-fullscreen flag and the single pending deferred-load slot.  Each
load entry point returns the list of loads it actually performs (entering
its non-collapsed branch); a collapsed call performs none and records a
descriptor instead.  Blobs are opaque ids. -/

/-- The `#deferred_load` descriptor: plain load, zip by URL, or zip by
blob. -/
inductive DeferredLoad where
  | src
  | zipUrl (url : Str)
  | zipBlob (blob : Nat) (filename : Str)
deriving DecidableEq, Repr

/-- Shell state relevant to collapse/deferred-load behavior. -/
structure ShellState where
  collapsed : Bool
  loading : Bool
  loaded : Bool
  fullscreen : Bool
  deferred : Option DeferredLoad
deriving DecidableEq, Repr

/-- The `load_src` entry point: when collapsed, record a plain descriptor
only if no descriptor (such as a zip one) is already recorded, and
perform nothing; otherwise perform the plain load. -/
def load_src (s : ShellState) : ShellState × List DeferredLoad :=
  if s.collapsed then
    ({ s with deferred := if s.deferred = none then some DeferredLoad.src else s.deferred }, [])
  else (s, [DeferredLoad.src])

/-- The `load_zip` entry point: when collapsed, record a zip-by-blob
descriptor and perform nothing; otherwise perform the zip load. -/
def load_zip (s : ShellState) (blob : Nat) (filename : Str) :
    ShellState × List DeferredLoad :=
  if s.collapsed then ({ s with deferred := some (DeferredLoad.zipBlob blob filename) }, [])
  else (s, [DeferredLoad.zipBlob blob filename])

/-- The `load_window_zip_url` entry point: when collapsed, record a
zip-by-url descriptor and perform nothing; otherwise perform the
download-and-load. -/
def load_window_zip_url (s : ShellState) (url : Str) :
    ShellState × List DeferredLoad :=
  if s.collapsed then ({ s with deferred := some (DeferredLoad.zipUrl url) }, [])
  else (s, [DeferredLoad.zipUrl url])

/-- The `#run_deferred_load_if_needed` method: nothing while collapsed or
loading; once loaded, discard the descriptor; otherwise consume the
descriptor (if any) and dispatch the matching load entry point. -/
def run_deferred_load_if_needed (s : ShellState) : ShellState × List DeferredLoad :=
  if s.collapsed then (s, [])
  else if s.loading then (s, [])
  else if s.loaded then ({ s with deferred := none }, [])
  else
    match s.deferred with
    | none => (s, [])
    | some d =>
      let s1 := { s with deferred := none }
      match d with
      | DeferredLoad.zipUrl url => load_window_zip_url s1 url
      | DeferredLoad.zipBlob b f => load_zip s1 b f
      | DeferredLoad.src => load_src s1

/-- The `setViewerCollapsed` method (visual styling elided): disabled
entirely while page fullscreen is active; on a collapsed-to-expanded
transition it runs the deferred load. -/
def setViewerCollapsed (s : ShellState) (next : Bool) : ShellState × List DeferredLoad :=
  if s.fullscreen then (s, [])
  else
    let prev := s.collapsed
    let s1 := { s with collapsed := next }
    if prev && !next then run_deferred_load_if_needed s1 else (s1, [])

/-! ## Viewer shell: view-state apply retry
(src/ecad-viewer/ecad_viewer.ts, #schedule_view_state_retry)

The retry loop state is the `#view_state_retry_scheduled` flag, the
`#view_state_retry_count` counter, the loaded flag, and whether a pending
fragment exists. -/

/-- State of the view-state retry machinery. -/
structure RetryState where
  scheduled : Bool
  count : Nat
  loaded : Bool
  pending : Bool
deriving DecidableEq, Repr

/-- The `#schedule_view_state_retry` method: refuse when already
scheduled, not loaded, nothing pending, or the counter exceeds 50;
otherwise mark scheduled, bump the counter, and register one idle-tick
retry (the boolean result). -/
def schedule_view_state_retry (s : RetryState) : RetryState × Bool :=
  if s.scheduled then (s, false)
  else if ¬ s.loaded then (s, false)
  else if ¬ s.pending then (s, false)
  else if s.count > 50 then (s, false)
  else ({ s with scheduled := true, count := s.count + 1 }, true)

/-- The idle-tick callback when the apply attempt fails (the sub-panel is
still missing): it clears the scheduled flag and keeps the fragment
pending (pending is cleared only on success). -/
def retry_tick_failed (s : RetryState) : RetryState :=
  { s with scheduled := false }

/-- Total number of retries scheduled from state `s` when the sub-panel
never becomes ready (every apply attempt fails): repeatedly schedule and
run the failing tick until scheduling is refused. -/
def retryRun (s : RetryState) : Nat :=
  if h : (schedule_view_state_retry s).2 = true then
    1 + retryRun (retry_tick_failed (schedule_view_state_retry s).1)
  else 0
termination_by 51 - s.count
decreasing_by
  simp only [schedule_view_state_retry, retry_tick_failed] at h ⊢
  split_ifs at h ⊢ with h1 h2 h3 h4 <;> simp_all <;> omega

/-- The retry state of a freshly constructed viewer instance. -/
def freshRetryState : RetryState :=
  { scheduled := false, count := 0, loaded := true, pending := true }

/-! ## Schematic hierarchy determination
(src/kicanvas/project.ts, Project._determine_schematic_hierarchy)

Schematic documents, sheets and sheet instances carry exactly the fields
the algorithm reads.  The helper `sorted_by_numeric_strings` lives in
base/array (outside src/) and is modelled from the spec below. -/

/-- A schematic sheet instance (`SchematicSheetInstance`): parent
instance path and declared page number. -/
structure SchematicSheetInstanceM where
  path : Str
  page : Option Str
deriving DecidableEq, Repr

/-- A schematic sheet (`SchematicSheet`): referenced file, uuid, display
name and instances. -/
structure SchematicSheetM where
  sheetfile : Option Str
  uuid : Str
  sheetname : Option Str
  instances : List SchematicSheetInstanceM
deriving DecidableEq, Repr

/-- A schematic document (`KicadSch`): filename, uuid, and its sheets. -/
structure KicadSchM where
  filename : Str
  uuid : Str
  sheets : List SchematicSheetM
deriving DecidableEq, Repr

/-- Modelled from the spec: numeric-aware string comparison used by
`sorted_by_numeric_strings` (base/array is outside src/) — all-digit
strings compare by numeric value (so "10" sorts after "9", not before
"2"), anything else lexicographically. -/
def strToNatDigits (s : Str) : Option Nat :=
  if s ≠ [] ∧ s.all Char.isDigit then
    some (s.foldl (fun acc c => acc * 10 + (c.toNat - 48)) 0)
  else none

/-- Lexicographic less-or-equal on character lists. -/
def strLexLe : Str → Str → Bool
  | [], _ => true
  | _ :: _, [] => false
  | a :: as, b :: bs => if a = b then strLexLe as bs else decide (a < b)

/-- Modelled from the spec: the numeric-aware page comparator. -/
def numericAwareLe (a b : Str) : Bool :=
  match strToNatDigits a, strToNatDigits b with
  | some x, some y => x ≤ y
  | _, _ => strLexLe a b

/-- The `parent_path` computation of the root search:
`path.split("/").slice(0, -1).join("/")`. -/
def parentPath (p : Str) : Str :=
  joinSep '/' ((splitSep '/' p).dropLast)

/-- The root-search loop: walk the by-length-sorted instance paths and
return the first schematic found under a non-empty parent path. -/
def findRootSch (p2s : List (Str × KicadSchM)) : List Str → Option KicadSchM
  | [] => none
  | p :: rest =>
    let parent := parentPath p
    if parent = [] then findRootSch p2s rest
    else
      match mapGet p2s parent with
      | some r => some r
      | none => findRootSch p2s rest

/-- The orphan page constructed for a schematic not reachable through the
hierarchy (`new ProjectPage(this, "schematic", filename, uuid path,
filename)`; the constructor arguments land in this field order). -/
def orphanProjectPage (sch : KicadSchM) : ProjectPage :=
  { filename := "schematic".data
    sheet_path := sch.filename
    name := some ('/' :: sch.uuid)
    page := some sch.filename }

/-- Result of `_determine_schematic_hierarchy`: the rebuilt page map, the
final root page, and the boolean the method returns. -/
structure HierarchyResult where
  pages_by_path : List (Str × ProjectPage)
  root_schematic_page : Option ProjectPage
  found_root : Bool
deriving DecidableEq, Repr

/-- The `_determine_schematic_hierarchy` method.  `schematics` is the
iteration order of `this.schematics()`; `files` is the key set of
`_files_by_name` (used only for the `sheet_sch` presence test).  Returns
the page map, the root page after the final unconditional reassignment
`_root_schematic_page = first(_pages_by_path.values())`, and the
`found_root` flag. -/
def hierarchyPathsToSchematics (schematics : List KicadSchM) : List (Str × KicadSchM) :=
  schematics.foldl (fun m sch => mapSet m ('/' :: sch.uuid) sch) []

/-- The `paths_to_sheet_instances` map build of the method (the sheet is
skipped when its `sheetfile` does not resolve in `_files_by_name`). -/
def hierarchyPathsToSheetInstances (schematics : List KicadSchM) (files : List Str) :
    List (Str × (SchematicSheetM × SchematicSheetInstanceM)) :=
  schematics.foldl (fun m sch =>
    sch.sheets.foldl (fun m sheet =>
      if (sheet.sheetfile.getD []) ∈ files then
        sheet.instances.foldl (fun m inst =>
          mapSet m (inst.path ++ '/' :: sheet.uuid) (sheet, inst)) m
      else m) m) []

/-- The root search: sheet-instance paths sorted shortest first, then the
first whose non-empty parent path resolves to a schematic. -/
def hierarchyRoot (schematics : List KicadSchM) (files : List Str) : Option KicadSchM :=
  findRootSch (hierarchyPathsToSchematics schematics)
    (((hierarchyPathsToSheetInstances schematics files).map Prod.fst).mergeSort
      (fun a b => a.length ≤ b.length))

/-- The hierarchical page list: the constructed root page followed by one
page per sheet instance when a root was found, empty otherwise. -/
def hierarchyPages (schematics : List KicadSchM) (files : List Str) : List ProjectPage :=
  match hierarchyRoot schematics files with
  | some r =>
    ({ filename := r.filename, sheet_path := '/' :: r.uuid,
       name := some ("Root".data), page := some ("1".data) } : ProjectPage) ::
      (hierarchyPathsToSheetInstances schematics files).map (fun e =>
        { filename := e.2.1.sheetfile.getD []
          sheet_path := e.1
          name := some (e.2.1.sheetname.getD (e.2.1.sheetfile.getD []))
          page := some (e.2.2.page.getD []) })
  | none => []

/-- The page map after inserting the numerically sorted hierarchical
pages. -/
def hierarchySortedMap (schematics : List KicadSchM) (files : List Str) :
    List (Str × ProjectPage) :=
  ((hierarchyPages schematics files).mergeSort
      (fun a b => numericAwareLe (a.page.getD []) (b.page.getD []))).foldl
    (fun m p => mapSet m p.project_path p) []

/-- The orphan-append loop over the schematics (the `seen` set is fixed
before the loop). -/
def addOrphans (seen : List Str) (schematics : List KicadSchM)
    (m : List (Str × ProjectPage)) : List (Str × ProjectPage) :=
  schematics.foldl (fun m sch =>
    if sch.filename ∈ seen then m
    else mapSet m (orphanProjectPage sch).project_path (orphanProjectPage sch)) m

/-- The `_determine_schematic_hierarchy` method of project.ts, assembled
from the stages above; `root_schematic_page` is the value left by the
final unconditional reassignment
`this._root_schematic_page = first(this._pages_by_path.values())`. -/
def determine_schematic_hierarchy (schematics : List KicadSchM) (files : List Str) :
    HierarchyResult :=
  let m0 := hierarchySortedMap schematics files
  let m1 := addOrphans (m0.map (fun e => e.2.filename)) schematics m0
  { pages_by_path := m1
    root_schematic_page := (m1.head?).map Prod.snd
    found_root := (hierarchyRoot schematics files).isSome }

/-! ## Theorems -/

lemma lastIndexOfChar_eq_none {c : Char} : ∀ {s : Str}, c ∉ s → lastIndexOfChar c s = none := by
  intro s h
  induction s with
  | nil => rfl
  | cons a rest ih =>
    have h1 : ¬ (a = c) := fun e => h (e ▸ List.mem_cons_self a rest)
    have h2 : c ∉ rest := fun m => h (List.mem_cons_of_mem a m)
    simp [lastIndexOfChar, ih h2, h1]

lemma lastIndexOfChar_append (a b : Str) (c : Char) (h : c ∉ b) :
    lastIndexOfChar c (a ++ c :: b) = some a.length := by
  induction a with
  | nil => simp [lastIndexOfChar, lastIndexOfChar_eq_none h]
  | cons x a' ih => simp [lastIndexOfChar, ih]

lemma strip_net_path_append (a b : Str) (h : '/' ∉ b) :
    strip_net_path (a ++ '/' :: b) = b := by
  unfold strip_net_path
  rw [lastIndexOfChar_append a b '/' h]
  show (a ++ '/' :: b).drop (a.length + 1) = b
  have he : a ++ '/' :: b = (a ++ ['/']) ++ b := by simp
  have hl : a.length + 1 = (a ++ ['/']).length := by simp
  rw [he, hl, List.drop_left]

lemma strip_net_path_no_sep (s : Str) (h : '/' ∉ s) : strip_net_path s = s := by
  unfold strip_net_path
  rw [lastIndexOfChar_eq_none h]

lemma normalize_unconnected_eq (b : Str) :
    normalize_unconnected_netname b =
      if startsWithStr ("unconnected".data) (jsToLower b) then ['x'] else b := by
  unfold normalize_unconnected_netname
  by_cases hb : b = []
  · subst hb; decide
  · simp [hb]

/-- C4.  For every net-name string the rendered label text is the
substring after the last "/" separator (an input with no separator is
unchanged), and any name that after truncation begins case-insensitively
with "unconnected" is replaced by the placeholder "x". -/
theorem net_label_rendering :
    (∀ a b : Str, '/' ∉ b →
      renderedNetLabel (a ++ '/' :: b) =
        if startsWithStr ("unconnected".data) (jsToLower b) then ['x'] else b) ∧
    (∀ s : Str, '/' ∉ s →
      renderedNetLabel s =
        if startsWithStr ("unconnected".data) (jsToLower s) then ['x'] else s) := by
  constructor
  · intro a b h
    unfold renderedNetLabel
    rw [strip_net_path_append a b h, normalize_unconnected_eq]
  · intro s h
    unfold renderedNetLabel
    rw [strip_net_path_no_sep s h, normalize_unconnected_eq]

/-- Witness for C4: "/aaa/bbb" renders as "bbb", a separator-free name is
unchanged, and an "unconnected" name (after truncation) renders as "x". -/
theorem net_label_rendering_witness :
    renderedNetLabel (("/aaa".data) ++ '/' :: ("bbb".data)) = "bbb".data ∧
    renderedNetLabel ("abc".data) = "abc".data ∧
    renderedNetLabel (("/net".data) ++ '/' :: ("Unconnected-(R1)".data)) = ['x'] := by
  refine ⟨?_, ?_, ?_⟩
  · rw [net_label_rendering.1 ("/aaa".data) ("bbb".data) (by decide)]; decide
  · rw [net_label_rendering.2 ("abc".data) (by decide)]; decide
  · rw [net_label_rendering.1 ("/net".data) ("Unconnected-(R1)".data) (by decide)]; decide

/-- C6.  The dynamic label computation invoked from `draw` never
propagates an exception: the rest of the draw always proceeds, and a
failing dynamic pass is swallowed into an empty label result. -/
theorem draw_swallows_dynamic_pass_exceptions {E A B : Type} :
    ∀ (body : Except E A) (superDraw : B),
      (boardViewerDraw body superDraw).rest = superDraw ∧
      (∀ e : E, boardViewerDraw (Except.error e : Except E A) superDraw =
        { labels := none, rest := superDraw }) := by
  intro body superDraw
  exact ⟨rfl, fun _ => rfl⟩

/-- C7.  With the layers panel in sync with the layer flags, highlighting
a positive net (when the highlight paints) and then clearing net focus
restores every layer's visibility to its pre-highlight value; clearing
with no prior highlight leaves the state unchanged while still emitting
the net-focus-cleared notification. -/
theorem net_focus_round_trip :
    (∀ (s : BVState) (n : Nat), 0 < n →
      (∀ l ∈ s.layers, mapGet s.ctrl_visibilities l.name = some l.visible) →
      (clear_net_focus (highlight_net s true (some n)).1).1 =
        { s with should_restore_visibility := false } ∧
      (clear_net_focus (highlight_net s true (some n)).1).2 = [BVEvent.netFocusCleared]) ∧
    (∀ s : BVState, s.should_restore_visibility = false →
      clear_net_focus s = (s, [BVEvent.netFocusCleared])) := by
  constructor
  · intro s n hn hsync
    have hne : (n != 0) = true := by simp; omega
    have hmap : (s.layers.map (fun l => { l with visible := false })).map
        (fun l => { l with visible := (mapGet s.ctrl_visibilities l.name).getD false }) =
          s.layers := by
      rw [List.map_map]
      have hid : ∀ l ∈ s.layers,
          ((fun l : VLayer =>
              { l with visible := (mapGet s.ctrl_visibilities l.name).getD false }) ∘
            (fun l : VLayer => { l with visible := false })) l = l := by
        intro l hl
        cases l with
        | mk nm vis => simp [hsync _ hl]
      rw [List.map_congr_left hid]
      exact List.map_id' s.layers
    simp [highlight_net, clear_net_focus, hne, hmap]
  · intro s h
    unfold clear_net_focus
    simp [h]

/-- Witness for C7: a concrete two-layer viewer state with a synced
panel, highlighting net 5 and clearing restores the state, and clearing
alone is a notification-only no-op. -/
theorem net_focus_round_trip_witness :
    ((clear_net_focus (highlight_net
        { layers := [{ name := "F.Cu".data, visible := true },
                     { name := "B.Cu".data, visible := false }]
          should_restore_visibility := false
          ctrl_visibilities := [("F.Cu".data, true), ("B.Cu".data, false)] }
        true (some 5)).1).1 =
      { layers := [{ name := "F.Cu".data, visible := true },
                   { name := "B.Cu".data, visible := false }]
        should_restore_visibility := false
        ctrl_visibilities := [("F.Cu".data, true), ("B.Cu".data, false)] }) ∧
    (clear_net_focus
        { layers := [{ name := "F.Cu".data, visible := true }]
          should_restore_visibility := false
          ctrl_visibilities := [] } =
      ({ layers := [{ name := "F.Cu".data, visible := true }]
         should_restore_visibility := false
         ctrl_visibilities := [] }, [BVEvent.netFocusCleared])) := by
  constructor
  · exact (net_focus_round_trip.1
      { layers := [{ name := "F.Cu".data, visible := true },
                   { name := "B.Cu".data, visible := false }]
        should_restore_visibility := false
        ctrl_visibilities := [("F.Cu".data, true), ("B.Cu".data, false)] }
      5 (by decide) (by decide)).1
  · exact net_focus_round_trip.2 _ rfl

/-- C8.  For a collapsed, not-yet-loaded viewer every load request
performs no load and records a single deferred descriptor (a plain load
never overwrites a recorded zip descriptor); expanding performs exactly
the one recorded deferred load; expanding after the viewer has loaded
performs none and discards the descriptor. -/
theorem deferred_load_behavior :
    ∀ s : ShellState, s.collapsed = true → s.loaded = false →
      ((load_src s).2 = [] ∧
        (load_src s).1.deferred =
          (if s.deferred = none then some DeferredLoad.src else s.deferred)) ∧
      (∀ b f, (load_zip s b f).2 = [] ∧
        (load_zip s b f).1.deferred = some (DeferredLoad.zipBlob b f)) ∧
      (∀ u, (load_window_zip_url s u).2 = [] ∧
        (load_window_zip_url s u).1.deferred = some (DeferredLoad.zipUrl u)) ∧
      (s.fullscreen = false → s.loading = false →
        ∀ d, s.deferred = some d →
          (setViewerCollapsed s false).2 = [d] ∧
          (setViewerCollapsed s false).1.deferred = none) ∧
      (∀ s2 : ShellState, s2.collapsed = true → s2.loaded = true →
        s2.fullscreen = false → s2.loading = false →
          (setViewerCollapsed s2 false).2 = [] ∧
          (setViewerCollapsed s2 false).1.deferred = none) := by
  intro s hc hl
  refine ⟨?_, ?_, ?_, ?_, ?_⟩
  · simp [load_src, hc]
  · intro b f; simp [load_zip, hc]
  · intro u; simp [load_window_zip_url, hc]
  · intro hf hld d hd
    simp [setViewerCollapsed, run_deferred_load_if_needed, hf, hc, hl, hld, hd,
      load_src, load_zip, load_window_zip_url]
    cases d <;> simp [load_src, load_zip, load_window_zip_url]
  · intro s2 hc2 hl2 hf2 hld2
    simp [setViewerCollapsed, run_deferred_load_if_needed, hf2, hc2, hl2, hld2]

/-- Witness for C8: a concrete collapsed, unloaded shell with a recorded
zip-by-url descriptor performs no load on a plain request and keeps the
zip descriptor, and performs exactly the zip load on expand. -/
theorem deferred_load_behavior_witness :
    ((load_src ⟨true, false, false, false, some (DeferredLoad.zipUrl ("u".data))⟩).2 = [] ∧
      (load_src ⟨true, false, false, false,
          some (DeferredLoad.zipUrl ("u".data))⟩).1.deferred =
        some (DeferredLoad.zipUrl ("u".data))) ∧
    ((setViewerCollapsed ⟨true, false, false, false,
        some (DeferredLoad.zipUrl ("u".data))⟩ false).2 =
      [DeferredLoad.zipUrl ("u".data)]) := by
  have h := deferred_load_behavior
    ⟨true, false, false, false, some (DeferredLoad.zipUrl ("u".data))⟩ rfl rfl
  refine ⟨⟨h.1.1, ?_⟩, (h.2.2.2.1 rfl rfl _ rfl).1⟩
  rw [h.1.2]
  decide

lemma retryRun_formula : ∀ (n : Nat) (s : RetryState), s.scheduled = false →
    s.loaded = true → s.pending = true → 51 - s.count = n → retryRun s = n := by
  intro n
  induction n with
  | zero =>
    intro s hs hl hp hc
    rw [retryRun]
    have : (schedule_view_state_retry s).2 = false := by
      simp only [schedule_view_state_retry, hs, hl, hp]
      have : s.count > 50 := by omega
      simp [this]
    simp [this]
  | succ k ih =>
    intro s hs hl hp hc
    have hle : s.count ≤ 50 := by omega
    have hsch : schedule_view_state_retry s =
        ({ s with scheduled := true, count := s.count + 1 }, true) := by
      simp only [schedule_view_state_retry, hs, hl, hp]
      have : ¬ (s.count > 50) := by omega
      simp [this]
    have hrec : retryRun
        (retry_tick_failed { s with scheduled := true, count := s.count + 1 }) = k := by
      apply ih
      · rfl
      · exact hl
      · exact hp
      · simp only [retry_tick_failed]
        omega
    rw [retryRun]
    simp [hsch, hrec]
    omega

/-- Counterexample for C9: starting from a freshly constructed viewer
whose sub-panel never becomes ready, the code schedules 51 retries (the
guard is `count > 50`, checked before the increment), exceeding the
claimed bound of 50. -/
theorem view_state_retry_counterexample :
    retryRun freshRetryState = 51 ∧ ¬ (retryRun freshRetryState ≤ 50) := by
  have h : retryRun freshRetryState = 51 := retryRun_formula 51 freshRetryState rfl rfl rfl rfl
  exact ⟨h, by omega⟩

lemma retryRun_le : ∀ (n : Nat) (s : RetryState), 51 - s.count ≤ n → retryRun s ≤ n := by
  intro n
  induction n with
  | zero =>
    intro s hc
    rw [retryRun]
    have : (schedule_view_state_retry s).2 = false := by
      simp only [schedule_view_state_retry]
      have : s.count > 50 := by omega
      split_ifs <;> simp_all
    simp [this]
  | succ k ih =>
    intro s hc
    rw [retryRun]
    split_ifs with h
    · have hcnt : (retry_tick_failed (schedule_view_state_retry s).1).count = s.count + 1 := by
        simp only [schedule_view_state_retry] at h ⊢
        split_ifs at h ⊢ with h1 h2 h3 h4 <;> simp_all [retry_tick_failed]
      have hcount : s.count ≤ 50 := by
        by_contra hgt
        have hff : (schedule_view_state_retry s).2 = false := by
          simp only [schedule_view_state_retry]
          split_ifs <;> simp_all
        simp [hff] at h
      have := ih (retry_tick_failed (schedule_view_state_retry s).1) (by omega)
      omega
    · omega

/-- C9 amended.  The retry loop keeps the fragment pending across a
failed apply, terminates (the driver below is a total function), and the
number of scheduled retries never exceeds 51: the counter guard
`count > 50` runs before the increment, so counts 0 through 50 each admit
one more schedule. -/
theorem view_state_retry_bound :
    (∀ s : RetryState, retryRun s ≤ 51) ∧
    (∀ s : RetryState, (retry_tick_failed s).pending = s.pending) := by
  constructor
  · intro s
    exact retryRun_le 51 s (by omega)
  · intro s
    rfl

lemma mapSet_head_of_ne {α β : Type} [DecidableEq α] (e : α × β) (m : List (α × β))
    (k : α) (v : β) (h : e.1 ≠ k) : mapSet (e :: m) k v = e :: mapSet m k v := by
  simp [mapSet, h]

lemma addOrphans_preserves_head (schematics : List KicadSchM) :
    ∀ (seen : List Str) (e : Str × ProjectPage) (m : List (Str × ProjectPage)),
      (∀ sch ∈ schematics, (orphanProjectPage sch).project_path ≠ e.1) →
      (addOrphans seen schematics (e :: m)).head? = some e := by
  induction schematics with
  | nil => intro seen e m hne; rfl
  | cons sch rest ih =>
    intro seen e m hne
    simp only [addOrphans, List.foldl_cons]
    by_cases hmem : sch.filename ∈ seen
    · simp only [if_pos hmem]
      exact ih seen e m (fun s hs => hne s (List.mem_cons_of_mem sch hs))
    · simp only [if_neg hmem]
      rw [mapSet_head_of_ne e m _ _
        (fun hc => hne sch (List.mem_cons_self sch rest) hc.symm)]
      exact ih seen e _ (fun s hs => hne s (List.mem_cons_of_mem sch hs))

lemma orphanProjectPage_key_inj {a b : KicadSchM} (h : a.filename ≠ b.filename) :
    (orphanProjectPage a).project_path ≠ (orphanProjectPage b).project_path := by
  intro hc
  simp only [orphanProjectPage, ProjectPage.project_path] at hc
  by_cases ha : a.filename = [] <;> by_cases hb : b.filename = [] <;>
    simp [ha, hb] at hc
  · exact h (ha.trans hb.symm)
  · exact h hc

/-- C10.  After `_determine_schematic_hierarchy` the root schematic page
always equals the first entry of the pages map — the final reassignment
applies whether or not a root sheet was discovered — and when no root is
found (map otherwise empty of hierarchical pages) it is the first orphan
page. -/
theorem root_schematic_page_is_first_map_entry :
    (∀ (schematics : List KicadSchM) (files : List Str),
      (determine_schematic_hierarchy schematics files).root_schematic_page =
        ((determine_schematic_hierarchy schematics files).pages_by_path.head?).map
          Prod.snd) ∧
    (∀ (s0 : KicadSchM) (rest : List KicadSchM) (files : List Str),
      (determine_schematic_hierarchy (s0 :: rest) files).found_root = false →
      (∀ sch ∈ rest, sch.filename ≠ s0.filename) →
      (determine_schematic_hierarchy (s0 :: rest) files).root_schematic_page =
        some (orphanProjectPage s0)) := by
  constructor
  · intro schematics files
    rfl
  · intro s0 rest files hfr hinj
    have hroot : hierarchyRoot (s0 :: rest) files = none := by
      have : (hierarchyRoot (s0 :: rest) files).isSome = false := hfr
      exact Option.not_isSome_iff_eq_none.mp (by simp [this])
    have hm0 : hierarchySortedMap (s0 :: rest) files = [] := by
      simp [hierarchySortedMap, hierarchyPages, hroot]
    show (addOrphans ((hierarchySortedMap (s0 :: rest) files).map (fun e => e.2.filename))
        (s0 :: rest) (hierarchySortedMap (s0 :: rest) files)).head?.map Prod.snd =
      some (orphanProjectPage s0)
    rw [hm0]
    show (addOrphans [] (s0 :: rest) []).head?.map Prod.snd = some (orphanProjectPage s0)
    have hstep : addOrphans [] (s0 :: rest) [] =
        addOrphans [] rest
          [((orphanProjectPage s0).project_path, orphanProjectPage s0)] := by
      simp [addOrphans, mapSet]
    rw [hstep]
    rw [addOrphans_preserves_head rest []
      ((orphanProjectPage s0).project_path, orphanProjectPage s0) []
      (fun sch hs => orphanProjectPage_key_inj (hinj sch hs))]
    rfl

/-- Witness for C10: one schematic with no sheets yields no root, and the
root page is its orphan page (the first map entry). -/
theorem root_schematic_page_witness :
    (determine_schematic_hierarchy
        [{ filename := "a.kicad_sch".data, uuid := "u1".data, sheets := [] }] []).root_schematic_page =
      some (orphanProjectPage
        { filename := "a.kicad_sch".data, uuid := "u1".data, sheets := [] }) := by
  exact (root_schematic_page_is_first_map_entry.2
    { filename := "a.kicad_sch".data, uuid := "u1".data, sheets := [] } [] []
    (by
      show (hierarchyRoot _ _).isSome = false
      simp [hierarchyRoot, hierarchyPathsToSheetInstances, hierarchyPathsToSchematics,
        findRootSch, mapSet])
    (by intro sch hs; cases hs))

/-- C2.  On a cache hit with a fresh snapshot (age at most the TTL),
`load` performs no fetch and no parse, emits exactly one load event,
opens the loaded gate, and rebuilds every container with exactly the
snapshot's elements (shared ids, fresh containers); the restored state
does not depend on the prior state (it was disposed). -/
theorem project_load_cache_hit :
    ∀ (missLoad : ProjectState → EcadSources → Nat → LoadResult)
      (cache : ProjectCache) (s : ProjectState) (sources : EcadSources)
      (now : Nat) (snap : ProjectSnapshot),
      mapGet cache (sourcesKey sources) = some snap →
      now - snap.lastUsedAt ≤ PROJECT_CACHE_TTL_MS →
      (projectLoad missLoad cache s sources now).fetches = 0 ∧
      (projectLoad missLoad cache s sources now).parses = 0 ∧
      (projectLoad missLoad cache s sources now).events = [ProjectEvent.load] ∧
      (projectLoad missLoad cache s sources now).state = restoreFromSnapshot s snap ∧
      (∀ s2 : ProjectState, restoreFromSnapshot s2 snap = restoreFromSnapshot s snap) ∧
      (restoreFromSnapshot s snap).loaded = true ∧
      (restoreFromSnapshot s snap).files_by_name = snap.files_by_name ∧
      (restoreFromSnapshot s snap).file_content = snap.file_content ∧
      (restoreFromSnapshot s snap).pcb = snap.pcb ∧
      (restoreFromSnapshot s snap).sch = snap.sch ∧
      (restoreFromSnapshot s snap).ov_3d_url = snap.ov_3d_url ∧
      (restoreFromSnapshot s snap).bom_items = snap.bom_items ∧
      (restoreFromSnapshot s snap).label_name_refs = snap.label_name_refs ∧
      (restoreFromSnapshot s snap).net_item_refs = snap.net_item_refs ∧
      (restoreFromSnapshot s snap).designator_refs = snap.designator_refs ∧
      (restoreFromSnapshot s snap).project_name = snap.project_name ∧
      (restoreFromSnapshot s snap).settings = snap.settings ∧
      (restoreFromSnapshot s snap).active_sch_name = snap.active_sch_name ∧
      (restoreFromSnapshot s snap).found_cjk = snap.found_cjk ∧
      (restoreFromSnapshot s snap).root_schematic_page = snap.root_page.map pageOfSnapshot ∧
      (restoreFromSnapshot s snap).pages_by_path =
        snap.pages.foldl
          (fun m p => mapSet m (pageOfSnapshot p).project_path (pageOfSnapshot p)) [] := by
  intro missLoad cache s sources now snap hget htt
  have hres : projectLoad missLoad cache s sources now =
      { state := restoreFromSnapshot s snap
        cache := evictProjectCacheIfNeeded now
          (mapSet cache (sourcesKey sources) { snap with lastUsedAt := now })
        events := [ProjectEvent.load]
        fetches := 0
        parses := 0 } := by
    unfold projectLoad
    simp only [hget, htt, if_true]
  rw [hres]
  refine ⟨rfl, rfl, rfl, rfl, fun s2 => rfl, rfl, rfl, rfl, rfl, rfl, rfl, rfl, rfl,
    rfl, rfl, rfl, rfl, rfl, rfl, rfl, rfl⟩

/-- Witness for C2: a one-entry cache holding a fresh empty snapshot for
the empty source set is hit with no fetch, no parse, and the loaded gate
open. -/
theorem project_load_cache_hit_witness :
    (projectLoad (fun s _ _ => ⟨s, [], [], 7, 7⟩)
        [(sourcesKey ⟨[], []⟩,
          ⟨0, 0, [], [], [], [], none, [], [], [], [], [], 0, none, false, none, []⟩)]
        ⟨[], [], [], [], none, [], [], [], [], [], 0, none, false, none, [], false⟩
        ⟨[], []⟩ 0).fetches = 0 ∧
    (projectLoad (fun s _ _ => ⟨s, [], [], 7, 7⟩)
        [(sourcesKey ⟨[], []⟩,
          ⟨0, 0, [], [], [], [], none, [], [], [], [], [], 0, none, false, none, []⟩)]
        ⟨[], [], [], [], none, [], [], [], [], [], 0, none, false, none, [], false⟩
        ⟨[], []⟩ 0).parses = 0 ∧
    ((projectLoad (fun s _ _ => ⟨s, [], [], 7, 7⟩)
        [(sourcesKey ⟨[], []⟩,
          ⟨0, 0, [], [], [], [], none, [], [], [], [], [], 0, none, false, none, []⟩)]
        ⟨[], [], [], [], none, [], [], [], [], [], 0, none, false, none, [], false⟩
        ⟨[], []⟩ 0).state.loaded = true) := by
  have h := project_load_cache_hit (fun s _ _ => ⟨s, [], [], 7, 7⟩)
    [(sourcesKey ⟨[], []⟩,
      ⟨0, 0, [], [], [], [], none, [], [], [], [], [], 0, none, false, none, []⟩)]
    ⟨[], [], [], [], none, [], [], [], [], [], 0, none, false, none, [], false⟩
    ⟨[], []⟩ 0
    ⟨0, 0, [], [], [], [], none, [], [], [], [], [], 0, none, false, none, []⟩
    (by simp [mapGet]) (by decide)
  refine ⟨h.1, h.2.1, ?_⟩
  rw [h.2.2.2.1]
  exact h.2.2.2.2.2.1

lemma mapDelete_sublist {α β : Type} [DecidableEq α] (l : List (α × β)) (k : α) :
    List.Sublist (mapDelete l k) l := by
  induction l with
  | nil => simp [mapDelete]
  | cons e rest ih =>
    rw [mapDelete]
    split_ifs
    · exact List.sublist_cons_self e rest
    · exact ih.cons₂ e

lemma mapDelete_cons_perm {α β : Type} [DecidableEq α]
    {l : List (α × β)} {v : α × β} (hn : (l.map Prod.fst).Nodup) (hv : v ∈ l) :
    (v :: mapDelete l v.1).Perm l := by
  induction l with
  | nil => cases hv
  | cons e rest ih =>
    rw [mapDelete]
    by_cases he : e.1 = v.1
    · have hev : e = v := by
        rcases List.mem_cons.mp hv with h | h
        · exact h.symm
        · exfalso
          have hm : e.1 ∈ rest.map Prod.fst := he ▸ List.mem_map_of_mem Prod.fst h
          exact (List.nodup_cons.mp (by simpa using hn)).1 hm
      rw [if_pos he, hev]
    · have hvr : v ∈ rest := by
        rcases List.mem_cons.mp hv with h | h
        · exact absurd (h ▸ rfl) he
        · exact h
      rw [if_neg he]
      have htail := ih (by
        simpa using (List.nodup_cons.mp (by simpa using hn)).2) hvr
      exact (List.Perm.swap e v (mapDelete rest v.1)).trans (htail.cons e)

lemma evictLoop_subset {e : Str × ProjectSnapshot} :
    ∀ (items : List (Str × ProjectSnapshot)) (c : ProjectCache),
      e ∈ evictLoop items c → e ∈ c := by
  intro items
  induction items with
  | nil => intro c h; exact h
  | cons v rest ih =>
    intro c h
    rw [evictLoop] at h
    split_ifs at h
    · exact (mapDelete_sublist c v.1).subset (ih (mapDelete c v.1) h)
    · exact h

lemma evictLoop_perm_drop :
    ∀ (items : List (Str × ProjectSnapshot)) (c : ProjectCache),
      c.Perm items → (c.map Prod.fst).Nodup →
      (evictLoop items c).Perm (items.drop (c.length - PROJECT_CACHE_MAX)) := by
  intro items
  induction items with
  | nil =>
    intro c hp hn
    have hc : c = [] := hp.eq_nil
    subst hc
    simp [evictLoop]
  | cons v rest ih =>
    intro c hp hn
    rw [evictLoop]
    split_ifs with hlen
    · have hv : v ∈ c := hp.mem_iff.mpr (List.mem_cons_self v rest)
      have hcons := mapDelete_cons_perm hn hv
      have hperm : (mapDelete c v.1).Perm rest :=
        List.Perm.cons_inv ((hcons.trans hp))
      have hnodup : ((mapDelete c v.1).map Prod.fst).Nodup :=
        hn.sublist ((mapDelete_sublist c v.1).map Prod.fst)
      have hlen2 : (mapDelete c v.1).length = c.length - 1 := by
        have := hcons.length_eq
        simp at this
        omega
      have hrec := ih (mapDelete c v.1) hperm hnodup
      rw [hlen2] at hrec
      have harith : c.length - PROJECT_CACHE_MAX = (c.length - 1 - PROJECT_CACHE_MAX) + 1 := by
        simp only [PROJECT_CACHE_MAX] at *
        omega
      rw [harith, List.drop_succ_cons]
      exact hrec
    · have h0 : c.length - PROJECT_CACHE_MAX = 0 := by
        simp only [PROJECT_CACHE_MAX] at *
        omega
      rw [h0, List.drop_zero]
      exact hp

lemma lastUsedLe_total : ∀ a b, lastUsedLe a b || lastUsedLe b a := by
  intro a b
  simp only [lastUsedLe, Bool.or_eq_true, decide_eq_true_eq]
  exact Nat.le_total _ _

lemma lastUsedLe_trans : ∀ a b c, lastUsedLe a b → lastUsedLe b c → lastUsedLe a c := by
  intro a b c hab hbc
  simp only [lastUsedLe, decide_eq_true_eq] at *
  omega

lemma mapGet_eq_none_of_not_mem {α β : Type} [DecidableEq α]
    {m : List (α × β)} {k : α} (h : k ∉ m.map Prod.fst) : mapGet m k = none := by
  unfold mapGet
  cases hf : m.find? (fun e => e.1 = k) with
  | none => rfl
  | some e =>
    exfalso
    have h1 : e.1 = k := by simpa using List.find?_some hf
    exact h (h1 ▸ List.mem_map_of_mem Prod.fst (List.mem_of_find?_eq_some hf))

/-- C3.  Cache maintenance first deletes every entry older than the TTL;
afterwards the cache holds at most 3 entries, and any surviving-age entry
that was evicted is least-recently-used (its `lastUsedAt` is at most that
of every retained entry); a TTL-expired entry reads as a miss, and so
does any key absent after eviction. -/
theorem project_cache_lru_ttl :
    ∀ (now : Nat) (cache : ProjectCache),
      (cache.map Prod.fst).Nodup →
      ((evictProjectCacheIfNeeded now cache).length ≤ PROJECT_CACHE_MAX) ∧
      (∀ e ∈ evictProjectCacheIfNeeded now cache,
        now - e.2.lastUsedAt ≤ PROJECT_CACHE_TTL_MS) ∧
      (∀ e ∈ cache, e ∉ evictProjectCacheIfNeeded now cache →
        now - e.2.lastUsedAt > PROJECT_CACHE_TTL_MS ∨
        (∀ kept ∈ evictProjectCacheIfNeeded now cache,
          e.2.lastUsedAt ≤ kept.2.lastUsedAt)) ∧
      (∀ key snap, mapGet cache key = some snap →
        now - snap.lastUsedAt > PROJECT_CACHE_TTL_MS →
        cacheGetFresh cache now key = none) ∧
      (∀ key, key ∉ (evictProjectCacheIfNeeded now cache).map Prod.fst →
        cacheGetFresh (evictProjectCacheIfNeeded now cache) now key = none) := by
  intro now cache hnodup
  have hget4 : ∀ key snap, mapGet cache key = some snap →
      now - snap.lastUsedAt > PROJECT_CACHE_TTL_MS →
      cacheGetFresh cache now key = none := by
    intro key snap hget hexp
    unfold cacheGetFresh
    rw [hget]
    have : ¬ (now - snap.lastUsedAt ≤ PROJECT_CACHE_TTL_MS) := by omega
    simp [this]
  have hget5 : ∀ key, key ∉ (evictProjectCacheIfNeeded now cache).map Prod.fst →
      cacheGetFresh (evictProjectCacheIfNeeded now cache) now key = none := by
    intro key hk
    unfold cacheGetFresh
    rw [mapGet_eq_none_of_not_mem hk]
  have hsweptnodup :
      ((cache.filter
        (fun e => ¬ (now - e.2.lastUsedAt > PROJECT_CACHE_TTL_MS))).map Prod.fst).Nodup :=
    hnodup.sublist ((cache.filter_sublist).map Prod.fst)
  have hsweptmem : ∀ e ∈ cache.filter
      (fun e => ¬ (now - e.2.lastUsedAt > PROJECT_CACHE_TTL_MS)),
      now - e.2.lastUsedAt ≤ PROJECT_CACHE_TTL_MS := by
    intro e he
    have := (List.mem_filter.mp he).2
    simp at this
    omega
  have hexpired : ∀ e ∈ cache, e ∉ cache.filter
      (fun e => ¬ (now - e.2.lastUsedAt > PROJECT_CACHE_TTL_MS)) →
      now - e.2.lastUsedAt > PROJECT_CACHE_TTL_MS := by
    intro e he hne
    by_contra hnot
    exact hne (List.mem_filter.mpr ⟨he, by simp; omega⟩)
  by_cases hle : (cache.filter
      (fun e => ¬ (now - e.2.lastUsedAt > PROJECT_CACHE_TTL_MS))).length ≤ PROJECT_CACHE_MAX
  · have hres : evictProjectCacheIfNeeded now cache = cache.filter
        (fun e => ¬ (now - e.2.lastUsedAt > PROJECT_CACHE_TTL_MS)) := by
      unfold evictProjectCacheIfNeeded
      simp only [hle, if_true]
    refine ⟨by rw [hres]; exact hle, ?_, ?_, hget4, hget5⟩
    · intro e he
      rw [hres] at he
      exact hsweptmem e he
    · intro e he hne
      rw [hres] at hne
      exact Or.inl (hexpired e he hne)
  · have hres : evictProjectCacheIfNeeded now cache =
        evictLoop ((cache.filter
            (fun e => ¬ (now - e.2.lastUsedAt > PROJECT_CACHE_TTL_MS))).mergeSort lastUsedLe)
          (cache.filter (fun e => ¬ (now - e.2.lastUsedAt > PROJECT_CACHE_TTL_MS))) := by
      unfold evictProjectCacheIfNeeded
      simp only [hle, if_false]
    have hperm0 : (cache.filter
        (fun e => ¬ (now - e.2.lastUsedAt > PROJECT_CACHE_TTL_MS))).Perm
        ((cache.filter
          (fun e => ¬ (now - e.2.lastUsedAt > PROJECT_CACHE_TTL_MS))).mergeSort lastUsedLe) :=
      (List.mergeSort_perm _ lastUsedLe).symm
    have hdrop := evictLoop_perm_drop _ _ hperm0 hsweptnodup
    rw [← hres] at hdrop
    refine ⟨?_, ?_, ?_, hget4, hget5⟩
    · have hlen1 := hdrop.length_eq
      have hlen2 := hperm0.length_eq
      rw [List.length_drop] at hlen1
      rw [← hlen2] at hlen1
      simp only [PROJECT_CACHE_MAX] at *
      omega
    · intro e he
      rw [hres] at he
      exact hsweptmem e (evictLoop_subset _ _ he)
    · intro e he hne
      by_cases hesw : e ∈ cache.filter
          (fun e => ¬ (now - e.2.lastUsedAt > PROJECT_CACHE_TTL_MS))
      · right
        intro kept hkept
        have hsorted := @List.sorted_mergeSort _ lastUsedLe
          lastUsedLe_trans lastUsedLe_total
          (cache.filter (fun e => ¬ (now - e.2.lastUsedAt > PROJECT_CACHE_TTL_MS)))
        have hmem : e ∈ (cache.filter
            (fun e => ¬ (now - e.2.lastUsedAt > PROJECT_CACHE_TTL_MS))).mergeSort lastUsedLe :=
          List.mem_mergeSort.mpr hesw
        have hnotdrop : e ∉ ((cache.filter
            (fun e => ¬ (now - e.2.lastUsedAt > PROJECT_CACHE_TTL_MS))).mergeSort
              lastUsedLe).drop ((cache.filter
            (fun e => ¬ (now - e.2.lastUsedAt > PROJECT_CACHE_TTL_MS))).length -
              PROJECT_CACHE_MAX) :=
          fun hc => hne (hdrop.mem_iff.mpr hc)
        have hkdrop := hdrop.mem_iff.mp hkept
        have hsplit := List.take_append_drop ((cache.filter
            (fun e => ¬ (now - e.2.lastUsedAt > PROJECT_CACHE_TTL_MS))).length -
              PROJECT_CACHE_MAX)
          ((cache.filter
            (fun e => ¬ (now - e.2.lastUsedAt > PROJECT_CACHE_TTL_MS))).mergeSort lastUsedLe)
        have hetake : e ∈ ((cache.filter
            (fun e => ¬ (now - e.2.lastUsedAt > PROJECT_CACHE_TTL_MS))).mergeSort
              lastUsedLe).take ((cache.filter
            (fun e => ¬ (now - e.2.lastUsedAt > PROJECT_CACHE_TTL_MS))).length -
              PROJECT_CACHE_MAX) := by
          rw [← hsplit] at hmem
          rcases List.mem_append.mp hmem with h | h
          · exact h
          · exact absurd h hnotdrop
        have hpw := List.pairwise_append.mp (hsplit ▸ hsorted)
        have hle2 := hpw.2.2 e hetake kept hkdrop
        simp only [lastUsedLe, decide_eq_true_eq] at hle2
        exact hle2
      · exact Or.inl (hexpired e he hesw)

/-- Witness for C3: a four-entry cache with distinct keys is cut to at
most 3 entries by maintenance, and an expired entry reads as a miss. -/
theorem project_cache_lru_ttl_witness :
    (evictProjectCacheIfNeeded 0
        [(['a'], ⟨0, 0, [], [], [], [], none, [], [], [], [], [], 0, none, false, none, []⟩),
         (['b'], ⟨0, 0, [], [], [], [], none, [], [], [], [], [], 0, none, false, none, []⟩),
         (['c'], ⟨0, 0, [], [], [], [], none, [], [], [], [], [], 0, none, false, none, []⟩),
         (['d'], ⟨0, 0, [], [], [], [], none, [], [], [], [], [], 0, none, false, none, []⟩)]).length ≤
      PROJECT_CACHE_MAX ∧
    cacheGetFresh
        [(['a'], ⟨0, 0, [], [], [], [], none, [], [], [], [], [], 0, none, false, none, []⟩)]
        600001 ['a'] = none := by
  constructor
  · exact (project_cache_lru_ttl 0
      [(['a'], ⟨0, 0, [], [], [], [], none, [], [], [], [], [], 0, none, false, none, []⟩),
       (['b'], ⟨0, 0, [], [], [], [], none, [], [], [], [], [], 0, none, false, none, []⟩),
       (['c'], ⟨0, 0, [], [], [], [], none, [], [], [], [], [], 0, none, false, none, []⟩),
       (['d'], ⟨0, 0, [], [], [], [], none, [], [], [], [], [], 0, none, false, none, []⟩)]
      (by decide)).1
  · exact (project_cache_lru_ttl 600001
      [(['a'], ⟨0, 0, [], [], [], [], none, [], [], [], [], [], 0, none, false, none, []⟩)]
      (by decide)).2.2.2.1 ['a']
      ⟨0, 0, [], [], [], [], none, [], [], [], [], [], 0, none, false, none, []⟩
      (by decide) (by decide)

lemma trackLayerEnabled_spec {st : LayerSetModel} {hc : Option Str} {cu : Str}
    (h : trackLayerEnabled st hc cu = true) :
    ∃ L, st.by_name (track_netname_label_layer_for cu) = some L ∧
      L.opacity ≠ 0 ∧ L.visible = true := by
  cases hc with
  | none =>
    cases hfind : st.by_name (track_netname_label_layer_for cu) with
    | none => simp [trackLayerEnabled, hfind] at h
    | some L =>
      simp [trackLayerEnabled, hfind] at h
      exact ⟨L, rfl, h.1, h.2⟩
  | some p =>
    by_cases hne : cu = p
    · subst hne
      cases hfind : st.by_name (track_netname_label_layer_for cu) with
      | none => simp [trackLayerEnabled, hfind] at h
      | some L =>
        simp [trackLayerEnabled, hfind] at h
        exact ⟨L, rfl, h.1, h.2⟩
    · simp [trackLayerEnabled, hne] at h

lemma trackSegDrawn_spec {camera : CameraQ} {getNetName : Int → Str} {unesc : Str → Str}
    {seg : LineSegment} (h : trackSegDrawn camera getNetName unesc seg = true) :
    seg.net > 0 ∧
    camera.zoom ≥ TRACK_NETLABEL_THRESHOLD_MM / max seg.width WIDTH_CLAMP ∧
    (seg.width ≥ WIDTH_CLAMP →
      camera.zoom ≥ TRACK_NETLABEL_THRESHOLD_MM / seg.width) ∧
    segLenSq seg ≥
      (seg.width * (charCount (normalize_unconnected_netname (strip_net_path
          (unesc (getNetName seg.net)))) : ℚ)) *
        (seg.width * (charCount (normalize_unconnected_netname (strip_net_path
          (unesc (getNetName seg.net)))) : ℚ)) := by
  simp only [trackSegDrawn] at h
  split_ifs at h with h1 h2 h3 h4 h5
  refine ⟨by omega, le_of_not_lt h2, ?_, le_of_not_lt h5⟩
  intro hw
  have hmax : max seg.width WIDTH_CLAMP = seg.width := max_eq_left hw
  rw [hmax] at h2
  exact le_of_not_lt h2

/-- C5 amended.  In the dynamic pass a track net-name label layer is
regenerated only if it exists, has nonzero opacity and is visible; and
within an enabled layer labels are generated for a segment only if its
net is positive, the zoom is at least 4.0 / max(width, 1e-6) — equal to
4.0 / width for every width at least 1e-6 — and the squared length is at
least (width × character count of the displayed name) squared. -/
theorem track_label_conditions :
    ∀ (st : LayerSetModel) (camera : CameraQ) (segments : List LineSegment)
      (getNetName : Int → Str) (unesc : Str → Str) (hc : Option Str),
      (∀ nm ∈ (updateDynamicTrackNetLabels st camera segments getNetName unesc hc).regenerated,
        ∃ L, st.by_name nm = some L ∧ L.opacity ≠ 0 ∧ L.visible = true) ∧
      (∀ p ∈ (updateDynamicTrackNetLabels st camera segments getNetName unesc hc).labeled,
        p.1 ∈ (updateDynamicTrackNetLabels st camera segments getNetName unesc hc).regenerated ∧
        p.2.net > 0 ∧
        camera.zoom ≥ TRACK_NETLABEL_THRESHOLD_MM / max p.2.width WIDTH_CLAMP ∧
        (p.2.width ≥ WIDTH_CLAMP →
          camera.zoom ≥ TRACK_NETLABEL_THRESHOLD_MM / p.2.width) ∧
        segLenSq p.2 ≥
          (p.2.width * (charCount (normalize_unconnected_netname (strip_net_path
              (unesc (getNetName p.2.net)))) : ℚ)) *
            (p.2.width * (charCount (normalize_unconnected_netname (strip_net_path
              (unesc (getNetName p.2.net)))) : ℚ))) := by
  intro st camera segments getNetName unesc hc
  unfold updateDynamicTrackNetLabels
  split_ifs with hvalid henabled
  case neg =>
    constructor
    · intro nm h
      cases h
    · intro p h
      cases h
  case neg =>
    constructor
    · intro nm h
      cases h
    · intro p h
      cases h
  case pos =>
    constructor
    · intro nm hnm
      simp only [List.mem_filterMap] at hnm
      obtain ⟨cu, _, hcu⟩ := hnm
      by_cases hen : trackLayerEnabled st hc cu = true
      · rw [if_pos hen] at hcu
        obtain ⟨L, hL, hop, hvis⟩ := trackLayerEnabled_spec hen
        exact ⟨L, (Option.some_inj.mp hcu) ▸ hL, hop, hvis⟩
      · rw [if_neg hen] at hcu
        cases hcu
    · intro p hp
      simp only [List.mem_flatMap] at hp
      obtain ⟨cu, hcumem, hpin⟩ := hp
      by_cases hen : trackLayerEnabled st hc cu = true
      · rw [if_pos hen] at hpin
        simp only [List.mem_map] at hpin
        obtain ⟨seg, hsegmem, hpeq⟩ := hpin
        have hdrawn := (List.mem_filter.mp hsegmem).2
        have hspec := trackSegDrawn_spec hdrawn
        subst hpeq
        refine ⟨?_, hspec.1, hspec.2.1, hspec.2.2.1, hspec.2.2.2⟩
        simp only [List.mem_filterMap]
        exact ⟨cu, hcumem, by rw [if_pos hen]⟩
      · rw [if_neg hen] at hpin
        cases hpin

/-- Counterexample for C5: a track segment of width 5e-7 mm (below the
1e-6 clamp) gets a label at zoom 4e6, although 4.0 / width = 8e6 exceeds
the zoom — the code tests zoom against 4.0 / max(width, 1e-6), not
4.0 / width. -/
theorem track_label_zoom_counterexample :
    (("track-netname:".data ++ ['F'],
        (⟨0, 0, 1, 0, 1/2000000, ['F'], 1⟩ : LineSegment)) ∈
      (updateDynamicTrackNetLabels
        ⟨[⟨"track-netname:".data ++ ['F'], 1, true⟩], [['F']]⟩
        ⟨4000000, true⟩
        [⟨0, 0, 1, 0, 1/2000000, ['F'], 1⟩]
        (fun _ => ['N']) (fun s => s) none).labeled) ∧
    ¬ ((4000000 : ℚ) ≥ TRACK_NETLABEL_THRESHOLD_MM / ((1 : ℚ)/2000000)) := by
  constructor
  · have hEn : trackLayerEnabled
        ⟨[⟨"track-netname:".data ++ ['F'], 1, true⟩], [['F']]⟩ none ['F'] = true := by
      decide
    have hch : ('N' = '/') = False := by decide
    have hDrawn : trackSegDrawn ⟨4000000, true⟩ (fun _ => ['N']) (fun s => s)
        (⟨0, 0, 1, 0, 1/2000000, ['F'], 1⟩ : LineSegment) = true := by
      simp only [trackSegDrawn, TRACK_NETLABEL_THRESHOLD_MM, WIDTH_CLAMP, segLenSq, charCount]
      norm_num [normalize_unconnected_netname, strip_net_path, lastIndexOfChar,
        startsWithStr, jsToLower, hch]
    unfold updateDynamicTrackNetLabels
    rw [if_neg (by decide), if_neg (by decide)]
    apply List.mem_flatMap.mpr
    refine ⟨['F'], by simp, ?_⟩
    rw [if_pos hEn]
    simp [segBucket, hDrawn, track_netname_label_layer_for, ← one_div]
  · simp only [TRACK_NETLABEL_THRESHOLD_MM]
    norm_num

/-- Witness for C5: a concrete enabled layer and an ordinary segment
(width 1 mm, net 1, length 2 mm) at zoom 4 generates a label satisfying
all amended conditions. -/
theorem track_label_conditions_witness :
    (1 : Int) > 0 ∧ ((4 : ℚ) ≥ TRACK_NETLABEL_THRESHOLD_MM / max 1 WIDTH_CLAMP) := by
  have hmem : ("track-netname:".data ++ ['F'],
      (⟨0, 0, 2, 0, 1, ['F'], 1⟩ : LineSegment)) ∈
      (updateDynamicTrackNetLabels
        ⟨[⟨"track-netname:".data ++ ['F'], 1, true⟩], [['F']]⟩
        ⟨4, true⟩ [⟨0, 0, 2, 0, 1, ['F'], 1⟩]
        (fun _ => ['N']) (fun s => s) none).labeled := by
    have hEn : trackLayerEnabled
        ⟨[⟨"track-netname:".data ++ ['F'], 1, true⟩], [['F']]⟩ none ['F'] = true := by
      decide
    have hch : ('N' = '/') = False := by decide
    have hDrawn : trackSegDrawn ⟨4, true⟩ (fun _ => ['N']) (fun s => s)
        (⟨0, 0, 2, 0, 1, ['F'], 1⟩ : LineSegment) = true := by
      simp only [trackSegDrawn, TRACK_NETLABEL_THRESHOLD_MM, WIDTH_CLAMP, segLenSq, charCount]
      norm_num [normalize_unconnected_netname, strip_net_path, lastIndexOfChar,
        startsWithStr, jsToLower, hch]
    unfold updateDynamicTrackNetLabels
    rw [if_neg (by decide), if_neg (by decide)]
    apply List.mem_flatMap.mpr
    refine ⟨['F'], by simp, ?_⟩
    rw [if_pos hEn]
    simp [segBucket, hDrawn, track_netname_label_layer_for]
  have h := (track_label_conditions ⟨[⟨"track-netname:".data ++ ['F'], 1, true⟩], [['F']]⟩
      ⟨4, true⟩ [⟨0, 0, 2, 0, 1, ['F'], 1⟩] (fun _ => ['N']) (fun s => s) none).2
      ("track-netname:".data ++ ['F'], ⟨0, 0, 2, 0, 1, ['F'], 1⟩) hmem
  exact ⟨h.2.1, h.2.2.1⟩

lemma djbStep_lt {h c : Nat} (hc : c < 2 ^ 32) : djbStep h c < 2 ^ 32 :=
  Nat.xor_lt_two_pow (Nat.mod_lt _ (by norm_num)) hc

lemma djbStep_inj_h {h1 h2 c : Nat} (H1 : h1 < 2 ^ 32) (H2 : h2 < 2 ^ 32)
    (hne : h1 ≠ h2) : djbStep h1 c ≠ djbStep h2 c := by
  intro he
  apply hne
  have hmod : (33 * h1) % 2 ^ 32 = (33 * h2) % 2 ^ 32 := Nat.xor_left_inj.mp he
  have hmeq : 33 * h1 ≡ 33 * h2 [MOD 2 ^ 32] := hmod
  have hco : Nat.gcd (2 ^ 32) 33 = 1 := by norm_num
  have hcanc := Nat.ModEq.cancel_left_of_coprime hco hmeq
  have h1m : h1 % 2 ^ 32 = h1 := Nat.mod_eq_of_lt H1
  have h2m : h2 % 2 ^ 32 = h2 := Nat.mod_eq_of_lt H2
  unfold Nat.ModEq at hcanc
  rw [h1m, h2m] at hcanc
  exact hcanc

lemma foldl_djbStep_lt : ∀ (l : List Nat) (h : Nat), h < 2 ^ 32 →
    (∀ x ∈ l, x < 2 ^ 32) → l.foldl djbStep h < 2 ^ 32 := by
  intro l
  induction l with
  | nil => intro h hh _; exact hh
  | cons c t ih =>
    intro h hh hmem
    exact ih (djbStep h c) (djbStep_lt (hmem c (List.mem_cons_self c t)))
      (fun x hx => hmem x (List.mem_cons_of_mem c hx))

lemma foldl_djbStep_inj : ∀ (l : List Nat) (h1 h2 : Nat), h1 < 2 ^ 32 → h2 < 2 ^ 32 →
    (∀ x ∈ l, x < 2 ^ 32) → h1 ≠ h2 → l.foldl djbStep h1 ≠ l.foldl djbStep h2 := by
  intro l
  induction l with
  | nil => intro h1 h2 _ _ _ hne; exact hne
  | cons c t ih =>
    intro h1 h2 H1 H2 hmem hne
    have hc : c < 2 ^ 32 := hmem c (List.mem_cons_self c t)
    exact ih (djbStep h1 c) (djbStep h2 c) (djbStep_lt hc) (djbStep_lt hc)
      (fun x hx => hmem x (List.mem_cons_of_mem c hx)) (djbStep_inj_h H1 H2 hne)

lemma foldl_djbStep_set : ∀ (l : List Nat) (j v h : Nat), j < l.length →
    v ≠ l.getD j 0 → v < 2 ^ 32 → h < 2 ^ 32 → (∀ x ∈ l, x < 2 ^ 32) →
    l.foldl djbStep h ≠ (l.set j v).foldl djbStep h := by
  intro l
  induction l with
  | nil =>
    intro j v h hj
    simp at hj
  | cons c t ih =>
    intro j v h hj hv hvlt hh hmem
    have hc : c < 2 ^ 32 := hmem c (List.mem_cons_self c t)
    cases j with
    | zero =>
      simp only [List.set_cons_zero, List.foldl_cons]
      apply foldl_djbStep_inj t (djbStep h c) (djbStep h v) (djbStep_lt hc)
        (djbStep_lt hvlt) (fun x hx => hmem x (List.mem_cons_of_mem c hx))
      intro he
      exact hv (Nat.xor_right_inj.mp he).symm
    | succ j2 =>
      simp only [List.set_cons_succ, List.foldl_cons]
      exact ih j2 v (djbStep h c) (by simpa using hj) (by simpa using hv) hvlt
        (djbStep_lt hc) (fun x hx => hmem x (List.mem_cons_of_mem c hx))

lemma hashLiteNum_set_ne {c : List Nat} {j v : Nat} (hj : j < min c.length 4096)
    (hv : v ≠ c.getD j 0) (hvlt : v < 2 ^ 32) (hmem : ∀ x ∈ c, x < 2 ^ 32) :
    hashLiteNum c ≠ hashLiteNum (c.set j v) := by
  unfold hashLiteNum
  rw [List.length_set, List.set_take]
  apply foldl_djbStep_set
  · rw [List.length_take]
    omega
  · rw [List.getD_eq_getElem?_getD, List.getElem?_take_of_lt hj,
      ← List.getD_eq_getElem?_getD]
    exact hv
  · exact hvlt
  · norm_num
  · intro x hx
    exact hmem x ((List.take_sublist _ _).subset hx)

lemma digitChar_inj_lt : ∀ a : Nat, a < 16 → ∀ b : Nat, b < 16 →
    Nat.digitChar a = Nat.digitChar b → a = b := by decide

lemma map_digitChar_inj : ∀ (l1 l2 : List Nat), (∀ x ∈ l1, x < 16) →
    (∀ x ∈ l2, x < 16) → l1.map Nat.digitChar = l2.map Nat.digitChar → l1 = l2 := by
  intro l1
  induction l1 with
  | nil =>
    intro l2 _ _ h
    cases l2 with
    | nil => rfl
    | cons b t2 => simp at h
  | cons a t ih =>
    intro l2 h1 h2 h
    cases l2 with
    | nil => simp at h
    | cons b t2 =>
      simp only [List.map_cons, List.cons.injEq] at h
      have ha := h1 a (List.mem_cons_self a t)
      have hb := h2 b (List.mem_cons_self b t2)
      rw [digitChar_inj_lt a ha b hb h.1,
        ih t2 (fun x hx => h1 x (List.mem_cons_of_mem a hx))
          (fun x hx => h2 x (List.mem_cons_of_mem b hx)) h.2]

lemma natToHex_hex_eq_zero {b : Nat} (hb : b ≠ 0)
    (h : ((Nat.digits 16 b).map Nat.digitChar).reverse = ['0']) : False := by
  have h2 : (Nat.digits 16 b).map Nat.digitChar = ['0'] := by
    have h3 := congrArg List.reverse h
    simpa using h3
  have h4 : Nat.digits 16 b = [0] :=
    map_digitChar_inj (Nat.digits 16 b) [0]
      (fun x hx => Nat.digits_lt_base (by norm_num) hx)
      (by intro x hx; simp at hx; omega)
      (h2.trans (by rfl))
  have h5 := Nat.ofDigits_digits 16 b
  rw [h4] at h5
  simp [Nat.ofDigits] at h5
  exact hb h5.symm

lemma natToHex_inj {a b : Nat} (h : natToHex a = natToHex b) : a = b := by
  unfold natToHex at h
  by_cases ha : a = 0 <;> by_cases hb : b = 0
  · exact ha.trans hb.symm
  · rw [if_pos ha, if_neg hb] at h
    exact absurd h.symm (fun hc => natToHex_hex_eq_zero hb hc)
  · rw [if_neg ha, if_pos hb] at h
    exact absurd h (fun hc => natToHex_hex_eq_zero ha hc)
  · rw [if_neg ha, if_neg hb] at h
    have h2 := congrArg List.reverse h
    simp only [List.reverse_reverse] at h2
    have h3 := map_digitChar_inj _ _
      (fun x hx => Nat.digits_lt_base (by norm_num) hx)
      (fun x hx => Nat.digits_lt_base (by norm_num) hx) h2
    exact Nat.digits.injective 16 h3

lemma hashLite_ne {c1 c2 : List Nat} (hh : hashLiteNum c1 ≠ hashLiteNum c2)
    (hlen : c1.length = c2.length) : hashLite c1 ≠ hashLite c2 := by
  intro he
  unfold hashLite at he
  rw [hlen] at he
  exact hh (natToHex_inj (List.append_cancel_right he))

lemma joinSep_cons_of_ne_nil {sep : Char} {e : Str} {L : List Str} (hL : L ≠ []) :
    joinSep sep (e :: L) = e ++ sep :: joinSep sep L := by
  cases L with
  | nil => exact absurd rfl hL
  | cons p ps => rfl

lemma joinSep_cancel : ∀ (pre : List Str) (x y : Str) (post : List Str),
    joinSep '|' (pre ++ x :: post) = joinSep '|' (pre ++ y :: post) → x = y := by
  intro pre
  induction pre with
  | nil =>
    intro x y post h
    cases post with
    | nil => exact h
    | cons p ps =>
      rw [List.nil_append, List.nil_append,
        @joinSep_cons_of_ne_nil '|' x (p :: ps) (by simp),
        @joinSep_cons_of_ne_nil '|' y (p :: ps) (by simp)] at h
      exact List.append_cancel_right h
  | cons e pre2 ih =>
    intro x y post h
    rw [List.cons_append, List.cons_append,
      @joinSep_cons_of_ne_nil '|' e (pre2 ++ x :: post) (by simp),
      @joinSep_cons_of_ne_nil '|' e (pre2 ++ y :: post) (by simp)] at h
    have h2 := List.append_cancel_left h
    injection h2 with _ h3
    exact ih x y post h3

lemma sourcesKey_blobEntry_cancel {urls : List Str} {pre post : List EcadBlob}
    {b1 b2 : EcadBlob}
    (h : sourcesKey ⟨urls, pre ++ b1 :: post⟩ = sourcesKey ⟨urls, pre ++ b2 :: post⟩) :
    blobEntry b1 = blobEntry b2 := by
  unfold sourcesKey at h
  injection h with _ h1
  injection h1 with _ h2
  have h3 := List.append_cancel_left h2
  injection h3 with _ h4
  injection h4 with _ h5
  injection h5 with _ h6
  rw [List.map_append, List.map_append, List.map_cons, List.map_cons] at h6
  exact joinSep_cancel (pre.map blobEntry) _ _ (post.map blobEntry) h6

/-- C1 amended.  For every load-source set containing an in-memory blob:
replacing one code unit of the blob's content at a position inside the
hashed 4096-unit prefix changes the cache key, and changing only the
blob's filename with identical content always changes the key (a one-byte
change beyond the 4096-unit prefix can leave the key unchanged, see the
collision counterexample). -/
theorem sourcesKey_sensitivity :
    ∀ (urls : List Str) (pre post : List EcadBlob) (f : Str) (c : List Nat)
      (j v : Nat) (f2 : Str),
      (j < min c.length 4096 → v ≠ c.getD j 0 → v < 2 ^ 32 → (∀ x ∈ c, x < 2 ^ 32) →
        sourcesKey ⟨urls, pre ++ ⟨f, c⟩ :: post⟩ ≠
          sourcesKey ⟨urls, pre ++ ⟨f, c.set j v⟩ :: post⟩) ∧
      (f2 ≠ f →
        sourcesKey ⟨urls, pre ++ ⟨f2, c⟩ :: post⟩ ≠
          sourcesKey ⟨urls, pre ++ ⟨f, c⟩ :: post⟩) := by
  intro urls pre post f c j v f2
  constructor
  · intro hj hv hvlt hmem he
    have hent := sourcesKey_blobEntry_cancel he
    unfold blobEntry at hent
    have h4 := List.append_cancel_left hent
    injection h4 with _ h5
    exact hashLite_ne (hashLiteNum_set_ne hj hv hvlt hmem) (List.length_set c j v).symm h5
  · intro hf he
    have hent := sourcesKey_blobEntry_cancel he
    unfold blobEntry at hent
    exact hf (List.append_cancel_right hent)

/-- Witness for C1: for a single two-unit blob, changing the first code
unit changes the key, and renaming the blob with identical content
changes the key. -/
theorem sourcesKey_sensitivity_witness :
    (sourcesKey ⟨[], [⟨['a'], [65, 66]⟩]⟩ ≠
      sourcesKey ⟨[], [⟨['a'], ([65, 66]).set 0 67⟩]⟩) ∧
    (sourcesKey ⟨[], [⟨['b'], [65, 66]⟩]⟩ ≠
      sourcesKey ⟨[], [⟨['a'], [65, 66]⟩]⟩) := by
  constructor
  · exact (sourcesKey_sensitivity [] [] [] ['a'] [65, 66] 0 67 ['b']).1
      (by decide) (by decide) (by decide) (by decide)
  · exact (sourcesKey_sensitivity [] [] [] ['a'] [65, 66] 0 67 ['b']).2 (by decide)

/-- Counterexample for C1: two blob contents of length 4097 differing
only in the last code unit (outside the hashed 4096-unit prefix, with
identical total length) produce the same cache key, so "changing one byte
of the blob's content changes the cache key" fails as stated. -/
theorem sourcesKey_prefix_collision :
    sourcesKey ⟨[], [⟨['a'], List.replicate 4097 65⟩]⟩ =
      sourcesKey ⟨[], [⟨['a'], List.replicate 4096 65 ++ [66]⟩]⟩ ∧
    List.replicate 4097 65 ≠ List.replicate 4096 65 ++ [66] := by
  constructor
  · have hlen1 : (List.replicate 4097 65 : List Nat).length = 4097 :=
      List.length_replicate 4097 65
    have hlen2 : (List.replicate 4096 65 ++ [66] : List Nat).length = 4097 := by
      rw [List.length_append, List.length_replicate, List.length_singleton]
    have hmin : min 4097 4096 = 4096 := by omega
    have h1 : hashLiteNum (List.replicate 4097 65) =
        hashLiteNum (List.replicate 4096 65 ++ [66]) := by
      unfold hashLiteNum
      rw [hlen1, hlen2, hmin]
      have ht1 : (List.replicate 4097 65 : List Nat).take 4096 =
          List.replicate 4096 65 := by
        rw [List.take_replicate]
        have : min 4096 4097 = 4096 := by omega
        rw [this]
      have ht2 : (List.replicate 4096 65 ++ [66] : List Nat).take 4096 =
          List.replicate 4096 65 :=
        List.take_left' (List.length_replicate 4096 65)
      rw [ht1, ht2]
    have h2 : (List.replicate 4097 65 : List Nat).length =
        (List.replicate 4096 65 ++ [66] : List Nat).length := by
      rw [hlen1, hlen2]
    have hHL : hashLite (List.replicate 4097 65) =
        hashLite (List.replicate 4096 65 ++ [66]) := by
      unfold hashLite
      rw [h1, h2]
    unfold sourcesKey
    simp only [List.map_cons, List.map_nil]
    unfold blobEntry
    rw [hHL]
  · intro h
    have hd := congrArg (List.drop 4096) h
    rw [List.drop_replicate, List.drop_left' (List.length_replicate 4096 65)] at hd
    have hone : (4097 - 4096 : Nat) = 1 := by omega
    rw [hone, List.replicate_one] at hd
    exact absurd hd (by decide)
